import Mathlib

set_option maxRecDepth 8000

/-!
Verification of the idn-C-serverList core (main.c, plt-posix.h).

The development embeds the bounded text formatter `vbufPrintf`, the entity
renderer `logServer`, the command-line parsing of `main`, and the POSIX
platform helpers of plt-posix.h as executable Lean functions, and proves the
specification's claims about them.

Modelling conventions:
* a C buffer is a `List Char`; `bufPtr`/`limitPtr` pointers become indices
  into that list (`Option Nat` for a possibly-NULL cursor);
* `vsnprintf` is modelled by its rendered output: the formatter receives the
  fully rendered text `s : List Char` and `rc = s.length` (the value
  `vsnprintf` returns).  Since rendering of a well-formed format never fails,
  the C error branch (`rc < 0`) is unreachable in the embedding;
* machine integers are `Nat`/`Int`; the pointer difference
  `limitPtr - bufPtr` is computed in `Int` exactly as the C `int` subtraction.
-/

/-- The C string terminator `'\0'`. -/
def NUL : Char := Char.ofNat 0

/-- Write the characters of `s` into memory `m` starting at index `i`
(`m.set` beyond the end of the list is a no-op, matching the fact that the
embedding never actually writes out of bounds). -/
def writeList : List Char → Nat → List Char → List Char
  | m, _, [] => m
  | m, i, c :: cs => writeList (m.set i c) (i + 1) cs

theorem writeList_length (s : List Char) (m : List Char) (i : Nat) :
    (writeList m i s).length = m.length := by
  induction s generalizing m i with
  | nil => rfl
  | cons c cs ih => simp [writeList, ih, List.length_set]

theorem writeList_getElem? (s : List Char) (m : List Char) (i j : Nat) :
    (writeList m i s)[j]? =
      if i ≤ j ∧ j < i + s.length ∧ j < m.length then s[j - i]? else m[j]? := by
  induction s generalizing m i with
  | nil =>
    rw [writeList]
    simp only [List.length_nil]
    rw [if_neg (by omega)]
  | cons c cs ih =>
    rw [writeList, ih, List.length_set]
    simp only [List.length_cons]
    rcases Nat.lt_trichotomy j i with hj | hj | hj
    · rw [if_neg (by omega), if_neg (by omega), List.getElem?_set_ne (by omega)]
    · subst hj
      by_cases hl : j < m.length
      · rw [if_neg (by omega), if_pos (by omega)]
        rw [List.getElem?_set, if_pos rfl, if_pos hl]
        simp
      · rw [if_neg (by omega), if_neg (by omega)]
        rw [List.getElem?_set, if_pos rfl, if_neg hl]
        rw [List.getElem?_eq_none (by omega)]
    · rw [List.getElem?_set_ne (by omega)]
      by_cases hin : j < i + 1 + cs.length ∧ j < m.length
      · rw [if_pos (by omega), if_pos (by omega)]
        have hd : j - i = (j - (i + 1)) + 1 := by omega
        rw [hd, List.getElem?_cons_succ]
      · rw [if_neg (by omega), if_neg (by omega)]

/-- The fall-through tail of `vbufPrintf` (main.c, lines 91-95):
`while((limitPtr - bufPtr) > 1) *bufPtr++ = '.'; *bufPtr = '\0'; return bufPtr;`
starting with `bufPtr` at index `p`. -/
def fillDots (mem : List Char) (p limitPtr : Nat) : List Char × Option Nat :=
  if p + 1 < limitPtr then
    ((writeList mem p (List.replicate (limitPtr - 1 - p) '.')).set
      (limitPtr - 1) NUL, some (limitPtr - 1))
  else (mem.set p NUL, some p)

/-- Shallow embedding of `vbufPrintf` (main.c, lines 60-96).

Arguments: the memory `mem`, the cursor `bufPtr` (`none` models a NULL
pointer), the index `limitPtr` of the buffer limit, and the rendered text `s`
that `vsnprintf` would produce for the format/argument pair.  Returns the
updated memory and the returned cursor.  Under the guard
`4 < limitPtr - p`, the C expressions `len` (after `len -= 4`) and
`&bufPtr[len]` are `limitPtr - p - 4` and index `p + (limitPtr - p - 4)`. -/
def vbufPrintf (mem : List Char) (bufPtr : Option Nat) (limitPtr : Nat)
    (s : List Char) : List Char × Option Nat :=
  match bufPtr with
  | none => (mem, none)
  | some p =>
    -- int len = limitPtr - bufPtr; abort on invalid buffer
    if (limitPtr : Int) - (p : Int) ≤ 0 then (mem, none)
    else if 4 < (limitPtr : Int) - (p : Int) then
      -- len -= 4; rc = vsnprintf(bufPtr, len + 1, fmt, arg_ptr)
      if limitPtr - p - 4 < s.length then
        -- truncated: vsnprintf wrote len chars and a terminator at bufPtr,
        -- then bufPtr = &bufPtr[len] and the ellipsis loop runs
        fillDots
          ((writeList mem p (s.take (limitPtr - p - 4))).set
            (p + (limitPtr - p - 4)) NUL)
          (p + (limitPtr - p - 4)) limitPtr
      else
        -- the printed string fits: return the new start pointer
        ((writeList mem p s).set (p + s.length) NUL, some (p + s.length))
    else
      -- insufficient buffer: append ellipsis over the remaining space
      fillDots mem p limitPtr

theorem fillDots_length (mem : List Char) (p limitPtr : Nat) :
    (fillDots mem p limitPtr).1.length = mem.length := by
  rw [fillDots]
  split
  · simp [List.length_set, writeList_length]
  · simp [List.length_set]

theorem vbufPrintf_length (mem : List Char) (c : Option Nat) (limitPtr : Nat)
    (s : List Char) : (vbufPrintf mem c limitPtr s).1.length = mem.length := by
  match c with
  | none => rfl
  | some p =>
    rw [vbufPrintf]
    split
    · rfl
    · split
      · split
        · rw [fillDots_length]
          simp [List.length_set, writeList_length]
        · simp [List.length_set, writeList_length]
      · rw [fillDots_length]

theorem getElem?_singleton (a : Char) (n : Nat) :
    [a][n]? = if n = 0 then some a else none := by
  cases n <;> simp

/-- Branch equation: invalid buffer (NULL handled by the `none` cursor; here
`limitPtr - bufPtr ≤ 0`). -/
theorem vbufPrintf_invalid (mem : List Char) (p limitPtr : Nat) (s : List Char)
    (h : (limitPtr : Int) - (p : Int) ≤ 0) :
    vbufPrintf mem (some p) limitPtr s = (mem, none) := by
  rw [vbufPrintf, if_pos h]

/-- Branch equation: the rendered text fits into the margin-reduced space. -/
theorem vbufPrintf_fits (mem : List Char) (p limitPtr : Nat) (s : List Char)
    (h4 : 4 < (limitPtr : Int) - (p : Int))
    (hfit : s.length ≤ limitPtr - p - 4) :
    vbufPrintf mem (some p) limitPtr s
      = ((writeList mem p s).set (p + s.length) NUL, some (p + s.length)) := by
  rw [vbufPrintf, if_neg (by omega), if_pos h4, if_neg (by omega)]

/-- Branch equation: truncation; the ellipsis loop writes exactly three dots
and the terminator lands at `limitPtr - 1`. -/
theorem vbufPrintf_trunc (mem : List Char) (p limitPtr : Nat) (s : List Char)
    (h4 : 4 < (limitPtr : Int) - (p : Int))
    (htr : limitPtr - p - 4 < s.length) :
    vbufPrintf mem (some p) limitPtr s
      = ((writeList
            ((writeList mem p (s.take (limitPtr - p - 4))).set
              (p + (limitPtr - p - 4)) NUL)
            (p + (limitPtr - p - 4)) (List.replicate 3 '.')).set
          (limitPtr - 1) NUL, some (limitPtr - 1)) := by
  rw [vbufPrintf, if_neg (by omega), if_pos h4, if_pos htr, fillDots,
    if_pos (by omega)]
  have h3 : limitPtr - 1 - (p + (limitPtr - p - 4)) = 3 := by omega
  rw [h3]

/-- Branch equation: remaining space of 1 to 4 units. -/
theorem vbufPrintf_small (mem : List Char) (p limitPtr : Nat) (s : List Char)
    (h0 : 0 < (limitPtr : Int) - (p : Int))
    (h4 : (limitPtr : Int) - (p : Int) ≤ 4) :
    vbufPrintf mem (some p) limitPtr s = fillDots mem p limitPtr := by
  rw [vbufPrintf, if_neg (by omega), if_neg (by omega)]

/-- Claim C1: for every call of the bounded formatter with a non-null cursor,
no byte at or beyond `limitPtr` is ever written; a `none` (buffer-exhausted)
result leaves the memory unchanged; and whenever a non-null cursor `q` is
returned, `p ≤ q < limitPtr` and the byte at `q` is the null terminator. -/
theorem claimC1_formatter_bounds (mem : List Char) (p limitPtr : Nat)
    (s : List Char) (hlim : limitPtr ≤ mem.length) :
    (∀ i, limitPtr ≤ i →
        (vbufPrintf mem (some p) limitPtr s).1[i]? = mem[i]?) ∧
    ((vbufPrintf mem (some p) limitPtr s).2 = none →
        (vbufPrintf mem (some p) limitPtr s).1 = mem) ∧
    (∀ q, (vbufPrintf mem (some p) limitPtr s).2 = some q →
        p ≤ q ∧ q < limitPtr ∧
        (vbufPrintf mem (some p) limitPtr s).1[q]? = some NUL) := by
  by_cases h0 : (limitPtr : Int) - (p : Int) ≤ 0
  · rw [vbufPrintf_invalid mem p limitPtr s h0]
    exact ⟨fun i _ => rfl, fun _ => rfl, fun q hq => by cases hq⟩
  · by_cases h4 : 4 < (limitPtr : Int) - (p : Int)
    · by_cases htr : limitPtr - p - 4 < s.length
      · rw [vbufPrintf_trunc mem p limitPtr s h4 htr]
        refine ⟨fun i hi => ?_, fun hnone => ?_, fun q hq => ?_⟩
        · rw [List.getElem?_set_ne (by omega), writeList_getElem?,
            if_neg (by simp only [List.length_replicate]; omega),
            List.getElem?_set_ne (by omega), writeList_getElem?,
            if_neg (by simp only [List.length_take]; omega)]
        · exact absurd hnone (by simp)
        · have hq2 : limitPtr - 1 = q := by simpa using hq
          subst hq2
          refine ⟨by omega, by omega, ?_⟩
          rw [List.getElem?_set, if_pos rfl,
            if_pos (by rw [writeList_length, List.length_set,
              writeList_length]; omega)]
      · rw [vbufPrintf_fits mem p limitPtr s h4 (by omega)]
        refine ⟨fun i hi => ?_, fun hnone => ?_, fun q hq => ?_⟩
        · rw [List.getElem?_set_ne (by omega), writeList_getElem?,
            if_neg (by omega)]
        · exact absurd hnone (by simp)
        · have hq2 : p + s.length = q := by simpa using hq
          subst hq2
          refine ⟨by omega, by omega, ?_⟩
          rw [List.getElem?_set, if_pos rfl,
            if_pos (by rw [writeList_length]; omega)]
    · rw [vbufPrintf_small mem p limitPtr s (by omega) (by omega)]
      by_cases hp1 : p + 1 < limitPtr
      · rw [fillDots, if_pos hp1]
        refine ⟨fun i hi => ?_, fun hnone => ?_, fun q hq => ?_⟩
        · rw [List.getElem?_set_ne (by omega), writeList_getElem?,
            if_neg (by simp only [List.length_replicate]; omega)]
        · exact absurd hnone (by simp)
        · have hq2 : limitPtr - 1 = q := by simpa using hq
          subst hq2
          refine ⟨by omega, by omega, ?_⟩
          rw [List.getElem?_set, if_pos rfl,
            if_pos (by rw [writeList_length]; omega)]
      · rw [fillDots, if_neg hp1]
        refine ⟨fun i hi => ?_, fun hnone => ?_, fun q hq => ?_⟩
        · rw [List.getElem?_set_ne (by omega)]
        · exact absurd hnone (by simp)
        · have hq2 : p = q := by simpa using hq
          subst hq2
          exact ⟨le_refl p, by omega,
            by rw [List.getElem?_set, if_pos rfl, if_pos (by omega)]⟩

/-- Witness for C1 at a concrete call: buffer of 8 `'A'`, cursor 0,
limit 6, text `"hi"`. -/
theorem claimC1_witness :
    ((vbufPrintf (List.replicate 8 'A') (some 0) 6 ['h', 'i']).1)[7]?
        = (List.replicate 8 'A' : List Char)[7]? ∧
    (0 ≤ 2 ∧ 2 < 6 ∧
      ((vbufPrintf (List.replicate 8 'A') (some 0) 6 ['h', 'i']).1)[2]?
        = some NUL) :=
  ⟨(claimC1_formatter_bounds (List.replicate 8 'A') 0 6 ['h', 'i']
      (by decide)).1 7 (by decide),
   (claimC1_formatter_bounds (List.replicate 8 'A') 0 6 ['h', 'i']
      (by decide)).2.2 2 (by decide)⟩

/-- Claim C5: for capacities 1 to 4 (`C = limitPtr - p`), the formatter fills
all positions but the last with `'.'` and puts the terminator in the last
position, regardless of the rendered text `s`. -/
theorem claimC5_small_capacity (mem : List Char) (p limitPtr : Nat)
    (s : List Char) (hlim : limitPtr ≤ mem.length) (hpos : p < limitPtr)
    (hsmall : limitPtr - p ≤ 4) :
    ((vbufPrintf mem (some p) limitPtr s).1.drop p).take (limitPtr - p)
        = List.replicate (limitPtr - p - 1) '.' ++ [NUL] ∧
    (vbufPrintf mem (some p) limitPtr s).2 = some (limitPtr - 1) := by
  rw [vbufPrintf_small mem p limitPtr s (by omega) (by omega)]
  by_cases hp1 : p + 1 < limitPtr
  · rw [fillDots, if_pos hp1]
    refine ⟨?_, rfl⟩
    apply List.ext_getElem?
    intro k
    simp only [List.getElem?_take, List.getElem?_drop, List.getElem?_append,
      List.length_replicate, List.getElem?_replicate, getElem?_singleton,
      List.getElem?_set, writeList_getElem?, writeList_length]
    split_ifs <;> first | rfl | omega | (exfalso; omega)
  · have hp : limitPtr = p + 1 := by omega
    subst hp
    rw [fillDots, if_neg hp1]
    refine ⟨?_, rfl⟩
    apply List.ext_getElem?
    intro k
    simp only [List.getElem?_take, List.getElem?_drop, List.getElem?_append,
      List.length_replicate, List.getElem?_replicate, getElem?_singleton,
      List.getElem?_set]
    split_ifs <;>
      first
        | rfl
        | omega
        | (exfalso; omega)
        | (exact List.getElem?_eq_none (by omega))
        | (exact (List.getElem?_eq_none (by omega)).symm)

/-- Witness for C5: buffer of 6 `'A'`, cursor 3, limit 6 (capacity 3),
text `"XYZ"`: the region becomes `"..\0"` and the cursor lands at 5. -/
theorem claimC5_witness :
    ((vbufPrintf (List.replicate 6 'A') (some 3) 6 ['X', 'Y', 'Z']).1.drop
        3).take 3
      = List.replicate 2 '.' ++ [NUL] ∧
    (vbufPrintf (List.replicate 6 'A') (some 3) 6 ['X', 'Y', 'Z']).2
      = some 5 := by
  have h := claimC5_small_capacity (List.replicate 6 'A') 3 6 ['X', 'Y', 'Z']
    (by decide) (by decide) (by decide)
  simpa using h

/-- Claim C2 counterexample: capacity `C = 10` and rendered length
`L = 7 ≤ C - 1`, yet the formatter truncates at `C - 4 = 6` characters and
parks the cursor at the limit: the claimed threshold `L ≤ C - 1` is wrong. -/
theorem claimC2_counterexample :
    (vbufPrintf (List.replicate 10 ' ') (some 0) 10
        ['A', 'B', 'C', 'D', 'E', 'F', 'G']).2 ≠ some 7 ∧
    (vbufPrintf (List.replicate 10 ' ') (some 0) 10
        ['A', 'B', 'C', 'D', 'E', 'F', 'G']).1
      = ['A', 'B', 'C', 'D', 'E', 'F', '.', '.', '.', NUL] := by decide

/-- Claim C2 (amended): for capacity `C = limitPtr - p ≥ 5` and rendered
length `L`: if `L ≤ C - 4` the exact text is written, null-terminated, and
the cursor returns just past it; if `L > C - 4` the region holds the first
`C - 4` characters followed by the 3-character ellipsis, the terminator sits
at `limitPtr - 1` (total string length `C - 1`), and the cursor parks at
`limitPtr - 1`. -/
theorem claimC2_formatter_exact (mem : List Char) (p limitPtr : Nat)
    (s : List Char) (hlim : limitPtr ≤ mem.length) (hcap : p + 5 ≤ limitPtr) :
    (s.length ≤ limitPtr - p - 4 →
      (vbufPrintf mem (some p) limitPtr s).2 = some (p + s.length) ∧
      ((vbufPrintf mem (some p) limitPtr s).1.drop p).take s.length = s ∧
      (vbufPrintf mem (some p) limitPtr s).1[p + s.length]? = some NUL) ∧
    (limitPtr - p - 4 < s.length →
      (vbufPrintf mem (some p) limitPtr s).2 = some (limitPtr - 1) ∧
      ((vbufPrintf mem (some p) limitPtr s).1.drop p).take (limitPtr - p - 1)
        = s.take (limitPtr - p - 4) ++ List.replicate 3 '.' ∧
      (vbufPrintf mem (some p) limitPtr s).1[limitPtr - 1]? = some NUL) := by
  constructor
  · intro hfit
    rw [vbufPrintf_fits mem p limitPtr s (by omega) hfit]
    refine ⟨rfl, ?_, ?_⟩
    · apply List.ext_getElem?
      intro k
      simp only [List.getElem?_take, List.getElem?_drop, List.getElem?_set,
        writeList_getElem?, writeList_length, Nat.add_sub_cancel_left]
      split_ifs <;>
        first
          | rfl
          | omega
          | (exfalso; omega)
          | (exact List.getElem?_eq_none (by omega))
          | (exact (List.getElem?_eq_none (by omega)).symm)
    · rw [List.getElem?_set, if_pos rfl,
        if_pos (by rw [writeList_length]; omega)]
  · intro htr
    rw [vbufPrintf_trunc mem p limitPtr s (by omega) htr]
    refine ⟨rfl, ?_, ?_⟩
    · apply List.ext_getElem?
      intro k
      simp only [List.getElem?_take, List.getElem?_drop, List.getElem?_append,
        List.getElem?_set, writeList_getElem?, writeList_length,
        List.length_set, List.length_take, List.length_replicate,
        List.getElem?_replicate, Nat.add_sub_cancel_left]
      split_ifs <;>
        first
          | rfl
          | omega
          | (exfalso; omega)
          | (exact List.getElem?_eq_none (by omega))
          | (exact (List.getElem?_eq_none (by omega)).symm)
    · have hl2 : limitPtr - 1
          < (writeList ((writeList mem p (s.take (limitPtr - p - 4))).set
              (p + (limitPtr - p - 4)) NUL) (p + (limitPtr - p - 4))
              (List.replicate 3 '.')).length := by
        simp only [writeList_length, List.length_set]
        omega
      rw [List.getElem?_set, if_pos rfl, if_pos hl2]

/-- Witness for C2 at a concrete fitting call: capacity 12, text `"hi"`. -/
theorem claimC2_witness :
    (vbufPrintf (List.replicate 12 ' ') (some 0) 12 ['h', 'i']).2 = some 2 ∧
    ((vbufPrintf (List.replicate 12 ' ') (some 0) 12 ['h', 'i']).1.drop
        0).take 2
      = ['h', 'i'] ∧
    (vbufPrintf (List.replicate 12 ' ') (some 0) 12 ['h', 'i']).1[2]?
      = some NUL := by
  have h := (claimC2_formatter_exact (List.replicate 12 ' ') 0 12 ['h', 'i']
    (by decide) (by decide)).1 (by decide)
  simpa using h

/-- Claim C6 counterexample: a valid cursor with remaining space 3 and a
zero-length rendering: the buffer is overwritten with filler and the cursor
moves, so the formatter is not a no-op on empty input. -/
theorem claimC6_counterexample :
    vbufPrintf ['A', 'B', 'C'] (some 0) 3 [] ≠ (['A', 'B', 'C'], some 0) := by
  decide

/-- Claim C6 (amended): with more than 4 units of remaining space a
zero-length rendering returns the cursor unchanged, and the only byte written
is the terminator at the cursor position; with 4 or fewer units the filler
behaviour of C5 applies instead. -/
theorem claimC6_empty_format (mem : List Char) (p limitPtr : Nat)
    (hcap : p + 5 ≤ limitPtr) :
    vbufPrintf mem (some p) limitPtr [] = (mem.set p NUL, some p) := by
  rw [vbufPrintf_fits mem p limitPtr [] (by omega) (by simp)]
  simp [writeList]

/-- Witness for C6 at a concrete call: buffer of 6 `'Q'`, cursor 1. -/
theorem claimC6_witness :
    vbufPrintf (List.replicate 6 'Q') (some 1) 6 []
      = ((List.replicate 6 'Q').set 1 NUL, some 1) :=
  claimC6_empty_format (List.replicate 6 'Q') 1 6 (by decide)

/-- Read a C string from the start of a buffer: the characters up to the
first NUL (what `logInfo(logString)` prints). -/
def cString (m : List Char) : List Char := m.takeWhile (fun c => c != NUL)

/-- A sequence of `bufPrintf` calls on the log buffer, threading the returned
cursor, with the limit at the end of the buffer (in `logServer`,
`logLimit = &logString[sizeof(logString)]`). -/
def bufPrintfFold (st : List Char × Option Nat)
    (pieces : List (List Char)) : List Char × Option Nat :=
  pieces.foldl (fun st s => vbufPrintf st.1 st.2 st.1.length s) st

/-- An uppercase hexadecimal digit as printed by `%X`. -/
def hexDigitChar (n : Nat) : Char :=
  if n < 10 then Char.ofNat (48 + n) else Char.ofNat (55 + n)

/-- The rendering of printf `"%02X"` for a byte (`unsigned char`) value. -/
def hex2 (b : Nat) : List Char :=
  [hexDigitChar (b / 16 % 16), hexDigitChar (b % 16)]

/-- Digits helper with structural fuel (any `fuel > n` is enough). -/
def decDigitsAux : Nat → Nat → List Char
  | 0, _ => []
  | fuel + 1, n =>
    if n < 10 then [Char.ofNat (48 + n)]
    else decDigitsAux fuel (n / 10) ++ [Char.ofNat (48 + n % 10)]

/-- The decimal digit characters of `n`, as printed by `%u`. -/
def decDigits (n : Nat) : List Char := decDigitsAux (n + 1) n

/-- Right-justification in a minimum-width field, as the printf width
modifier pads (`"%3u"`). -/
def rjust (w : Nat) (s : List Char) : List Char :=
  List.replicate (w - s.length) ' ' ++ s

/-- Modelled from the spec: `idnServerList.h` is not among the sources, so
the Relay Entry record follows §3 of the spec: `relayName`, possibly empty
(a C string, hence NUL-free in well-formed data). -/
structure IDNSL_RELAY_INFO where
  relayName : List Char

/-- Modelled from the spec: the Service Entry of §3 — numeric `serviceID`,
enumerated `serviceType`, `serviceName` possibly empty, and an optional
non-owning relay back-reference. -/
structure IDNSL_SERVICE_INFO where
  serviceID : Nat
  serviceType : Nat
  serviceName : List Char
  parentRelay : Option IDNSL_RELAY_INFO

/-- Modelled from the spec: the Address Entry of §3; the two bits of
`errorFlags` used by `logServer` are carried as two booleans. -/
structure IDNSL_SERVER_ADDRESS where
  addr : Nat
  errorFlagAmbiguous : Bool
  errorFlagUnreachable : Bool

/-- Modelled from the spec: the Device Record of §3.  `unitID` holds the
identity bytes that follow the leading length byte of the C array
(`serverInfo->unitID[0]` is `unitID.length` here); the `addressCount` and
`serviceCount` fields of the C record are the list lengths. -/
structure IDNSL_SERVER_INFO where
  unitID : List Nat
  hostName : List Char
  addressTable : List IDNSL_SERVER_ADDRESS
  serviceTable : List IDNSL_SERVICE_INFO

/-- Modelled from the spec: `idn-stream.h` is not among the sources; the
spec only distinguishes two known service-type values, rendered `lapro` and
`audio`.  The concrete numbers are not observable in any claim. -/
def IDNVAL_STYPE_LAPRO : Nat := 4

/-- Modelled from the spec: see `IDNVAL_STYPE_LAPRO`. -/
def IDNVAL_STYPE_AUDIO : Nat := 5

/-- Dotted-decimal rendering of an IPv4 address as stored in
`sin_addr.s_addr` (network byte order): `inet_ntop(AF_INET, ...)` prints the
octets in memory order, lowest-address octet first (the least-significant
byte of the stored word on the little-endian hosts modelled here).  With the
20-byte buffer of `logServer` the conversion never fails, so the `<error>`
branch (main.c lines 165-169) is unreachable in the model. -/
def ip4Dotted (a : Nat) : List Char :=
  decDigits (a % 256) ++ ['.'] ++ decDigits (a / 256 % 256) ++ ['.']
    ++ decDigits (a / 65536 % 256) ++ ['.'] ++ decDigits (a / 16777216 % 256)

/-- The `bufPrintf` outputs of the unitID loop of `logServer` (main.c,
lines 140-146): each byte as `"%02X"`, and a `"-"` right after the first
byte (the separator call is guarded only by `i == 0`, not by the length). -/
def unitIDPieces (unitID : List Nat) : List (List Char) :=
  match unitID with
  | [] => []
  | b :: rest => hex2 b :: ['-'] :: rest.map hex2

/-- The host-name output of `logServer` (lines 149-152): `"(%s)"` when the
name is non-empty. -/
def hostPieces (hostName : List Char) : List (List Char) :=
  if hostName = [] then [] else [('(' :: hostName) ++ [')']]

/-- The reachability comment chosen at lines 172-174 (ambiguous first). -/
def addrComment (ad : IDNSL_SERVER_ADDRESS) : List Char :=
  if ad.errorFlagAmbiguous then
    [' ', '(', 'a', 'm', 'b', 'i', 'g', 'u', 'o', 'u', 's', ')']
  else if ad.errorFlagUnreachable then
    [' ', '(', 'u', 'n', 'r', 'e', 'a', 'c', 'h', 'a', 'b', 'l', 'e', ')']
  else []

/-- The address-loop outputs of `logServer` (lines 155-176): a separator
(`" at "` for the first entry, `", "` after), then `"%s%s"` of the address
text and the comment. -/
def addrPieces (first : Bool) : List IDNSL_SERVER_ADDRESS → List (List Char)
  | [] => []
  | ad :: rest =>
    (if first then [' ', 'a', 't', ' '] else [',', ' '])
      :: (ip4Dotted ad.addr ++ addrComment ad) :: addrPieces false rest

/-- All `bufPrintf` outputs of the device summary line of `logServer`. -/
def devicePieces (s : IDNSL_SERVER_INFO) : List (List Char) :=
  unitIDPieces s.unitID ++ hostPieces s.hostName
    ++ addrPieces true s.addressTable

/-- Output of `bufPrintf(logPtr, logLimit, "  %3u: ", serviceID)`
(line 190): the width is the fixed `3` of the format string. -/
def serviceIDPiece (sid : Nat) : List Char :=
  [' ', ' '] ++ rjust 3 (decDigits sid) ++ [':', ' ']

/-- Rendering of a printf format string that receives no variadic
arguments, as `vsnprintf` interprets it in the call
`bufPrintf(logPtr, logLimit, serviceName)` at main.c line 195 (the name is
the FORMAT argument there, unlike the relay name, which goes through
`"@%s"`).  A `%%` sequence prints a single `%` (defined C behaviour); any
other `%` directive would consume a variadic argument that was never
passed — undefined behaviour — modelled as `none`. -/
def fmtRender : List Char → Option (List Char)
  | [] => some []
  | c :: rest =>
    if c = '%' then
      match rest with
      | [] => none
      | d :: rest2 =>
        if d = '%' then (fmtRender rest2).map (fun t => '%' :: t)
        else none
    else (fmtRender rest).map (fun t => c :: t)

/-- The string handed to the service-name `bufPrintf` call as its format
(lines 193-194): `"<unnamed>"` replaces an empty name before the call. -/
def serviceNameArg (nm : List Char) : List Char :=
  if nm = [] then ['<', 'u', 'n', 'n', 'a', 'm', 'e', 'd', '>'] else nm

/-- Output of the service-name call (line 195): the format interpretation
of the (substituted) name.  When `fmtRender` is `none` the C call has
undefined behaviour; the `[]` fallback only keeps the embedding total — no
theorem about service lines holds without assuming the rendering is
defined. -/
def serviceNamePiece (nm : List Char) : List Char :=
  (fmtRender (serviceNameArg nm)).getD []

/-- Output of the optional relay call (lines 198-205). -/
def relayPieces : Option IDNSL_RELAY_INFO → List (List Char)
  | none => []
  | some re =>
    [('@' :: (if re.relayName = [] then ['<', 'b', 'l', 'a', 'n', 'k', '>']
      else re.relayName))]

/-- Output of the service-type call (lines 208-212). -/
def typePiece (t : Nat) : List Char :=
  if t = IDNVAL_STYPE_LAPRO then [' ', '(', 'l', 'a', 'p', 'r', 'o', ')']
  else if t = IDNVAL_STYPE_AUDIO then [' ', '(', 'a', 'u', 'd', 'i', 'o', ')']
  else [' ', '(', '0', 'x'] ++ hex2 t ++ [')']

/-- All `bufPrintf` outputs of one service line of `logServer`
(lines 184-215). -/
def servicePieces (e : IDNSL_SERVICE_INFO) : List (List Char) :=
  serviceIDPiece e.serviceID :: serviceNamePiece e.serviceName
    :: (relayPieces e.parentRelay ++ [typePiece e.serviceType])

/-- The service-line loop of `logServer`: each iteration resets the cursor
to the start of the reused buffer, formats one line, and emits the C string
found at the buffer start. -/
def serviceLinesAux (mem : List Char) :
    List IDNSL_SERVICE_INFO → List (List Char)
  | [] => []
  | e :: rest =>
    cString (bufPrintfFold (mem, some 0) (servicePieces e)).1
      :: serviceLinesAux (bufPrintfFold (mem, some 0) (servicePieces e)).1
          rest

/-- Shallow embedding of `logServer` (main.c, lines 134-217): the list of
lines handed to `logInfo`, starting from an arbitrary (uninitialised) stack
buffer `mem0` (`char logString[200]`). -/
def logServer (mem0 : List Char) (s : IDNSL_SERVER_INFO) :
    List (List Char) :=
  cString (bufPrintfFold (mem0, some 0) (devicePieces s)).1
    :: serviceLinesAux (bufPrintfFold (mem0, some 0) (devicePieces s)).1
        s.serviceTable

theorem bufPrintfFold_none (ps : List (List Char)) (mem : List Char) :
    bufPrintfFold (mem, none) ps = (mem, none) := by
  induction ps with
  | nil => rfl
  | cons s rest ih => exact ih

theorem bufPrintfFold_length (ps : List (List Char)) :
    ∀ st : List Char × Option Nat,
      (bufPrintfFold st ps).1.length = st.1.length := by
  induction ps with
  | nil => intro st; rfl
  | cons s rest ih =>
    intro st
    show (bufPrintfFold (vbufPrintf st.1 st.2 st.1.length s) rest).1.length = _
    rw [ih, vbufPrintf_length]

/-- `vbufPrintf` never writes below the cursor. -/
theorem vbufPrintf_lower (mem : List Char) (p limitPtr : Nat) (s : List Char)
    (i : Nat) (hi : i < p) :
    (vbufPrintf mem (some p) limitPtr s).1[i]? = mem[i]? := by
  by_cases h0 : (limitPtr : Int) - (p : Int) ≤ 0
  · rw [vbufPrintf_invalid mem p limitPtr s h0]
  · by_cases h4 : 4 < (limitPtr : Int) - (p : Int)
    · by_cases htr : limitPtr - p - 4 < s.length
      · rw [vbufPrintf_trunc mem p limitPtr s h4 htr]
        rw [List.getElem?_set_ne (by omega), writeList_getElem?,
          if_neg (by omega), List.getElem?_set_ne (by omega),
          writeList_getElem?, if_neg (by omega)]
      · rw [vbufPrintf_fits mem p limitPtr s h4 (by omega)]
        rw [List.getElem?_set_ne (by omega), writeList_getElem?,
          if_neg (by omega)]
    · rw [vbufPrintf_small mem p limitPtr s (by omega) (by omega), fillDots]
      split
      · rw [List.getElem?_set_ne (by omega), writeList_getElem?,
          if_neg (by omega)]
      · rw [List.getElem?_set_ne (by omega)]

/-- A non-null cursor returned by `vbufPrintf` never moves backwards. -/
theorem vbufPrintf_cursor_ge (mem : List Char) (p limitPtr : Nat)
    (s : List Char) (q : Nat)
    (hq : (vbufPrintf mem (some p) limitPtr s).2 = some q) : p ≤ q := by
  by_cases h0 : (limitPtr : Int) - (p : Int) ≤ 0
  · rw [vbufPrintf_invalid mem p limitPtr s h0] at hq
    cases hq
  · by_cases h4 : 4 < (limitPtr : Int) - (p : Int)
    · by_cases htr : limitPtr - p - 4 < s.length
      · rw [vbufPrintf_trunc mem p limitPtr s h4 htr] at hq
        have : limitPtr - 1 = q := by simpa using hq
        omega
      · rw [vbufPrintf_fits mem p limitPtr s h4 (by omega)] at hq
        have : p + s.length = q := by simpa using hq
        omega
    · rw [vbufPrintf_small mem p limitPtr s (by omega) (by omega),
        fillDots] at hq
      by_cases hp1 : p + 1 < limitPtr
      · rw [if_pos hp1] at hq
        have : limitPtr - 1 = q := by simpa using hq
        omega
      · rw [if_neg hp1] at hq
        have : p = q := by simpa using hq
        omega

/-- A fold of `bufPrintf` calls starting at cursor `p` never changes bytes
below `p`. -/
theorem bufPrintfFold_lower (ps : List (List Char)) :
    ∀ (mem : List Char) (p i : Nat), i < p →
      (bufPrintfFold (mem, some p) ps).1[i]? = mem[i]? := by
  induction ps with
  | nil => intro mem p i _; rfl
  | cons s rest ih =>
    intro mem p i hi
    show (bufPrintfFold (vbufPrintf mem (some p) mem.length s) rest).1[i]?
      = mem[i]?
    rcases hr : vbufPrintf mem (some p) mem.length s with ⟨m1, c1⟩
    have hm1 : m1[i]? = mem[i]? := by
      rw [← vbufPrintf_lower mem p mem.length s i hi, hr]
    match c1 with
    | none => rw [bufPrintfFold_none]; exact hm1
    | some q =>
      have hpq : p ≤ q := by
        apply vbufPrintf_cursor_ge mem p mem.length s
        rw [hr]
      rw [ih m1 q i (by omega)]
      exact hm1

theorem writeList_set_absorb (m : List Char) (i : Nat) (a : Char)
    (t : List Char) (ht : t ≠ []) :
    writeList (m.set i a) i t = writeList m i t := by
  match t with
  | [] => exact absurd rfl ht
  | c :: cs => rw [writeList, writeList, List.set_set]

theorem writeList_append (s t : List Char) :
    ∀ (m : List Char) (i : Nat),
      writeList m i (s ++ t) = writeList (writeList m i s) (i + s.length) t := by
  induction s with
  | nil => intro m i; simp [writeList]
  | cons c cs ih =>
    intro m i
    rw [List.cons_append, writeList, writeList, ih]
    have hidx : i + 1 + cs.length = i + (c :: cs).length := by
      simp [List.length_cons]
      omega
    rw [hidx]

/-- Clean characterisation of a fold of `bufPrintf` calls: when every piece
is non-empty and the total (plus the 4-unit margin) fits below the limit,
the fold writes the concatenation at the cursor, terminates it, and leaves
the cursor right past it. -/
theorem bufPrintfFold_clean (ps : List (List Char)) :
    ∀ (mem : List Char) (p : Nat), ps ≠ [] → (∀ s ∈ ps, s ≠ []) →
      p + ps.flatten.length + 4 ≤ mem.length →
      bufPrintfFold (mem, some p) ps
        = ((writeList mem p ps.flatten).set (p + ps.flatten.length) NUL,
           some (p + ps.flatten.length)) := by
  induction ps with
  | nil => intro mem p hne _ _; exact absurd rfl hne
  | cons s rest ih =>
    intro mem p _ hall hfit
    have hs : s ≠ [] := hall s (by simp)
    have hslen : 1 ≤ s.length := by
      cases s with
      | nil => exact absurd rfl hs
      | cons a as => simp
    have hflat : (s :: rest).flatten = s ++ rest.flatten :=
      List.flatten_cons
    rw [hflat, List.length_append] at hfit ⊢
    have hstep : vbufPrintf mem (some p) mem.length s
        = ((writeList mem p s).set (p + s.length) NUL,
           some (p + s.length)) := by
      apply vbufPrintf_fits
      · omega
      · omega
    show bufPrintfFold (vbufPrintf mem (some p) mem.length s) rest = _
    rw [hstep]
    match rest with
    | [] =>
      show ((writeList mem p s).set (p + s.length) NUL, some (p + s.length))
        = _
      simp only [List.flatten_nil, List.append_nil, List.length_nil,
        Nat.add_zero]
    | r :: rs =>
      have hrne : (r :: rs).flatten ≠ [] := by
        have hr : r ≠ [] := hall r (by simp)
        cases r with
        | nil => exact absurd rfl hr
        | cons a as => simp
      rw [ih ((writeList mem p s).set (p + s.length) NUL) (p + s.length)
        (by simp)
        (fun t ht => hall t (by simp [ht]))
        (by rw [List.length_set, writeList_length]; omega)]
      rw [writeList_set_absorb _ _ _ _ hrne, ← writeList_append]
      have hidx : p + s.length + (r :: rs).flatten.length
          = p + (s.length + (r :: rs).flatten.length) := by omega
      rw [hidx]

/-- If the first `n` bytes are non-NUL and byte `n` is NUL, the C string read
from the buffer start is exactly the first `n` bytes. -/
theorem takeWhile_eq_take (m : List Char) :
    ∀ n : Nat, (∀ k, k < n → ∃ c, m[k]? = some c ∧ c ≠ NUL) →
      m[n]? = some NUL →
      m.takeWhile (fun c => c != NUL) = m.take n := by
  induction m with
  | nil =>
    intro n _ hn
    simp at hn
  | cons c t ih =>
    intro n hlt hn
    cases n with
    | zero =>
      have hc : c = NUL := by simpa using hn
      subst hc
      rw [List.takeWhile_cons]
      simp
    | succ k =>
      obtain ⟨c0, hc0, hcne⟩ := hlt 0 (Nat.succ_pos k)
      have hc : c = c0 := by simpa using hc0
      subst hc
      rw [List.takeWhile_cons, if_pos (by simpa using hcne),
        List.take_succ_cons]
      congr 1
      apply ih k
      · intro j hj
        have := hlt (j + 1) (by omega)
        simpa using this
      · simpa using hn

/-- If the first `t` bytes are non-NUL, the C string read from the buffer
agrees with the buffer on its first `t` bytes. -/
theorem takeWhile_take (m : List Char) :
    ∀ t : Nat, (∀ k, k < t → ∃ c, m[k]? = some c ∧ c ≠ NUL) →
      (m.takeWhile (fun c => c != NUL)).take t = m.take t := by
  induction m with
  | nil => intro t _; simp
  | cons c m ih =>
    intro t h
    cases t with
    | zero => simp
    | succ k =>
      obtain ⟨c0, hc0, hne⟩ := h 0 (Nat.succ_pos k)
      have hc : c = c0 := by simpa using hc0
      subst hc
      rw [List.takeWhile_cons, if_pos (by simpa using hne),
        List.take_succ_cons, List.take_succ_cons]
      congr 1
      apply ih k
      intro j hj
      have := h (j + 1) (by omega)
      simpa using this

/-- Reading back a cleanly written and terminated string. -/
theorem cString_writeList (m0 : List Char) (s : List Char)
    (hnul : NUL ∉ s) (hlen : s.length < m0.length) :
    cString ((writeList m0 0 s).set s.length NUL) = s := by
  rw [cString]
  rw [takeWhile_eq_take _ s.length ?pre ?nul]
  case pre =>
    intro k hk
    have hbuf : ((writeList m0 0 s).set s.length NUL)[k]? = s[k]? := by
      rw [List.getElem?_set_ne (by omega), writeList_getElem?,
        if_pos ⟨by omega, by omega, by omega⟩, Nat.sub_zero]
    rw [hbuf, List.getElem?_eq_getElem hk]
    exact ⟨s[k], rfl, fun heq => hnul (heq ▸ List.getElem_mem hk)⟩
  case nul =>
    rw [List.getElem?_set, if_pos rfl,
      if_pos (by rw [writeList_length]; omega)]
  · apply List.ext_getElem?
    intro k
    simp only [List.getElem?_take, List.getElem?_set, writeList_getElem?,
      writeList_length, List.length_set, Nat.zero_add, Nat.sub_zero,
      Nat.zero_le, true_and]
    split_ifs <;>
      first
        | rfl
        | omega
        | (exfalso; omega)
        | (exact List.getElem?_eq_none (by omega))
        | (exact (List.getElem?_eq_none (by omega)).symm)

theorem digitChar_ne (d : Nat) (hd : d < 10) :
    Char.ofNat (48 + d) ≠ NUL ∧ Char.ofNat (48 + d) ≠ '-' := by
  have hb : ∀ m, m < 10 → Char.ofNat (48 + m) ≠ NUL
      ∧ Char.ofNat (48 + m) ≠ '-' := by decide
  exact hb d hd

theorem decDigitsAux_chars (fuel : Nat) :
    ∀ n, n < fuel → ∀ c ∈ decDigitsAux fuel n, c ≠ NUL ∧ c ≠ '-' := by
  induction fuel with
  | zero => intro n hn; omega
  | succ fuel ih =>
    intro n hn c hc
    rw [decDigitsAux] at hc
    split at hc
    · have hc2 : c = Char.ofNat (48 + n) := by simpa using hc
      subst hc2
      exact digitChar_ne n (by omega)
    · rcases List.mem_append.mp hc with hc2 | hc2
      · exact ih (n / 10) (by omega) c hc2
      · have hc3 : c = Char.ofNat (48 + n % 10) := by simpa using hc2
        subst hc3
        exact digitChar_ne (n % 10) (Nat.mod_lt _ (by omega))

theorem decDigits_chars (n : Nat) :
    ∀ c ∈ decDigits n, c ≠ NUL ∧ c ≠ '-' :=
  decDigitsAux_chars (n + 1) n (by omega)

theorem decDigits_ne_nil (n : Nat) : decDigits n ≠ [] := by
  rw [decDigits, decDigitsAux]
  split
  · simp
  · simp

theorem hexDigitChar_ne (d : Nat) (hd : d < 16) :
    hexDigitChar d ≠ NUL ∧ hexDigitChar d ≠ '-' := by
  have hb : ∀ m, m < 16 → hexDigitChar m ≠ NUL ∧ hexDigitChar m ≠ '-' := by
    decide
  exact hb d hd

theorem hex2_chars (b : Nat) : ∀ c ∈ hex2 b, c ≠ NUL ∧ c ≠ '-' := by
  intro c hc
  rcases (by simpa [hex2] using hc : c = hexDigitChar (b / 16 % 16)
      ∨ c = hexDigitChar (b % 16)) with rfl | rfl
  · exact hexDigitChar_ne _ (Nat.mod_lt _ (by omega))
  · exact hexDigitChar_ne _ (Nat.mod_lt _ (by omega))

theorem typePiece_ne_nil (t : Nat) : typePiece t ≠ [] := by
  rw [typePiece]
  split_ifs <;> simp

/-- The last `bufPrintf` output of a service line is the (never empty)
type annotation. -/
theorem servicePieces_getLast (e : IDNSL_SERVICE_INFO) :
    (servicePieces e).getLast? = some (typePiece e.serviceType) := by
  rw [servicePieces]
  cases e.parentRelay with
  | none => rfl
  | some re => rfl

/-- Every character that `fmtRender` outputs occurs in the format string. -/
theorem fmtRender_subset (nm : List Char) :
    ∀ r, fmtRender nm = some r → ∀ c ∈ r, c ∈ nm := by
  induction nm using fmtRender.induct with
  | case1 =>
    intro r h c hc
    have hr : r = [] := by simpa [fmtRender] using h
    subst hr
    simp at hc
  | case2 =>
    intro r h
    simp [fmtRender] at h
  | case3 rest2 ih =>
    intro r h c hc
    rw [fmtRender, if_pos rfl, if_pos rfl] at h
    rcases Option.map_eq_some'.mp h with ⟨t, ht, hr⟩
    subst hr
    rcases List.mem_cons.mp hc with rfl | hc2
    · simp
    · have := ih t ht c hc2
      simp [this]
  | case4 d rest2 hd =>
    intro r h
    rw [fmtRender, if_pos rfl, if_neg hd] at h
    cases h
  | case5 d rest2 hd ih =>
    intro r h c hc
    cases rest2 with
    | nil =>
      rw [fmtRender, if_neg hd] at h
      have hr : r = [d] := by simpa [fmtRender] using h.symm
      subst hr
      simpa using hc
    | cons x xs =>
      rw [fmtRender, if_neg hd] at h
      rcases Option.map_eq_some'.mp h with ⟨t, ht, hr⟩
      subst hr
      rcases List.mem_cons.mp hc with rfl | hc2
      · simp
      · have := ih t ht c hc2
        simp [this]

/-- A format string containing no `%` renders as itself. -/
theorem fmtRender_no_pct (nm : List Char) :
    '%' ∉ nm → fmtRender nm = some nm := by
  induction nm with
  | nil => intro _; rfl
  | cons c rest ih =>
    intro h
    have hc : c ≠ '%' := fun hcc => h (hcc ▸ List.mem_cons_self c rest)
    cases rest with
    | nil =>
      rw [fmtRender, if_neg hc]
      rfl
    | cons x xs =>
      rw [fmtRender, if_neg hc,
        ih (fun hm => h (List.mem_cons_of_mem c hm))]
      rfl

theorem serviceIDPiece_no_nul (sid : Nat) : NUL ∉ serviceIDPiece sid := by
  intro h
  rw [serviceIDPiece, rjust] at h
  rcases List.mem_append.mp h with h1 | h1
  · rcases List.mem_append.mp h1 with h2 | h2
    · exact absurd h2 (by decide)
    · rcases List.mem_append.mp h2 with h3 | h3
      · exact absurd (List.eq_of_mem_replicate h3) (by decide)
      · exact (decDigits_chars sid NUL h3).1 rfl
  · exact absurd h1 (by decide)

/-- No byte of a service line is NUL, for NUL-free name and relay name. -/
theorem servicePieces_no_nul (e : IDNSL_SERVICE_INFO)
    (hname : NUL ∉ e.serviceName)
    (hrelay : ∀ re, e.parentRelay = some re → NUL ∉ re.relayName) :
    NUL ∉ (servicePieces e).flatten := by
  intro h
  rw [servicePieces] at h
  simp only [List.flatten_cons, List.flatten_append, List.flatten_cons,
    List.flatten_nil, List.append_nil] at h
  rcases List.mem_append.mp h with h1 | h1
  · exact serviceIDPiece_no_nul _ h1
  rcases List.mem_append.mp h1 with h2 | h2
  · rw [serviceNamePiece] at h2
    cases hf : fmtRender (serviceNameArg e.serviceName) with
    | none =>
      rw [hf] at h2
      simp at h2
    | some r =>
      rw [hf] at h2
      simp only [Option.getD_some] at h2
      have h3 : NUL ∈ serviceNameArg e.serviceName :=
        fmtRender_subset _ r hf NUL h2
      rw [serviceNameArg] at h3
      split_ifs at h3 with hn
      · exact absurd h3 (by decide)
      · exact hname h3
  rcases List.mem_append.mp h2 with h3 | h3
  · cases hpr : e.parentRelay with
    | none =>
      rw [hpr] at h3
      simp [relayPieces] at h3
    | some re =>
      rw [hpr, relayPieces] at h3
      have h4 : NUL ∈ '@' :: (if re.relayName = []
          then ['<', 'b', 'l', 'a', 'n', 'k', '>'] else re.relayName) := by
        simpa using h3
      rcases List.mem_cons.mp h4 with heq | h5
      · exact absurd heq (by decide)
      · split_ifs at h5 with hb
        · exact absurd h5 (by decide)
        · exact hrelay re hpr h5
  · rw [typePiece] at h3
    split_ifs at h3
    · exact absurd h3 (by decide)
    · exact absurd h3 (by decide)
    · rcases List.mem_append.mp h3 with h4 | h4
      · rcases List.mem_append.mp h4 with h5 | h5
        · exact absurd h5 (by decide)
        · exact (hex2_chars _ NUL h5).1 rfl
      · exact absurd h4 (by decide)

theorem flatten_ne_nil_of_getLast (ps : List (List Char)) :
    ∀ t, ps.getLast? = some t → t ≠ [] → ps.flatten ≠ [] := by
  induction ps with
  | nil =>
    intro t h _
    simp at h
  | cons s rest ih =>
    intro t h ht
    cases rest with
    | nil =>
      have hs : s = t := by simpa using h
      subst hs
      simp only [List.flatten_cons, List.flatten_nil, List.append_nil]
      exact ht
    | cons r rs =>
      rw [List.getLast?_cons_cons] at h
      have h2 := ih t h ht
      rw [List.flatten_cons]
      intro h3
      exact h2 (List.append_eq_nil.mp h3).2

/-- Clean characterisation of a fold of `bufPrintf` calls whose LAST piece
is non-empty (earlier pieces may be empty — an empty render still writes a
terminator, which the next piece or the final terminator overwrites): when
the total plus the 4-unit margin fits below the limit, the fold writes the
concatenation at the cursor, terminates it, and leaves the cursor right
past it. -/
theorem bufPrintfFold_cleanLast (ps : List (List Char)) :
    ∀ (mem : List Char) (p : Nat) (t : List Char),
      ps.getLast? = some t → t ≠ [] →
      p + ps.flatten.length + 4 ≤ mem.length →
      bufPrintfFold (mem, some p) ps
        = ((writeList mem p ps.flatten).set (p + ps.flatten.length) NUL,
           some (p + ps.flatten.length)) := by
  induction ps with
  | nil =>
    intro mem p t h _ _
    simp at h
  | cons s rest ih =>
    intro mem p t hlast ht hfit
    have hflat : (s :: rest).flatten = s ++ rest.flatten :=
      List.flatten_cons
    rw [hflat, List.length_append] at hfit ⊢
    cases rest with
    | nil =>
      have hs : s = t := by simpa using hlast
      subst hs
      simp only [List.flatten_nil, List.length_nil, Nat.add_zero] at hfit
      have hslen : 1 ≤ s.length := by
        cases s with
        | nil => exact absurd rfl ht
        | cons a as => simp
      have hstep : vbufPrintf mem (some p) mem.length s
          = ((writeList mem p s).set (p + s.length) NUL,
             some (p + s.length)) := by
        apply vbufPrintf_fits
        · omega
        · omega
      show bufPrintfFold (vbufPrintf mem (some p) mem.length s) [] = _
      rw [hstep]
      show ((writeList mem p s).set (p + s.length) NUL, some (p + s.length))
        = _
      simp only [List.flatten_nil, List.append_nil, List.length_nil,
        Nat.add_zero]
    | cons r rs =>
      rw [List.getLast?_cons_cons] at hlast
      have hrflat : (r :: rs).flatten ≠ [] :=
        flatten_ne_nil_of_getLast (r :: rs) t hlast ht
      have hrflen : 1 ≤ (r :: rs).flatten.length := by
        cases hrf : (r :: rs).flatten with
        | nil => exact absurd hrf hrflat
        | cons a as => simp
      have hstep : vbufPrintf mem (some p) mem.length s
          = ((writeList mem p s).set (p + s.length) NUL,
             some (p + s.length)) := by
        apply vbufPrintf_fits
        · omega
        · omega
      show bufPrintfFold (vbufPrintf mem (some p) mem.length s) (r :: rs)
        = _
      rw [hstep]
      rw [ih ((writeList mem p s).set (p + s.length) NUL) (p + s.length) t
        hlast ht
        (by rw [List.length_set, writeList_length]; omega)]
      rw [writeList_set_absorb _ _ _ _ hrflat, ← writeList_append]
      have hidx : p + s.length + (r :: rs).flatten.length
          = p + (s.length + (r :: rs).flatten.length) := by omega
      rw [hidx]

/-- The `i`-th line produced by the service loop is the concatenation of the
`bufPrintf` outputs for the `i`-th service entry, whenever that line is
NUL-free and fits below the truncation margin of the 200-byte buffer. -/
theorem serviceLinesAux_line (table : List IDNSL_SERVICE_INFO) :
    ∀ (mem : List Char) (i : Nat) (e : IDNSL_SERVICE_INFO),
      mem.length = 200 → table[i]? = some e →
      NUL ∉ (servicePieces e).flatten →
      (servicePieces e).flatten.length + 4 ≤ 200 →
      (serviceLinesAux mem table)[i]? = some ((servicePieces e).flatten) := by
  induction table with
  | nil =>
    intro mem i e _ he _ _
    simp at he
  | cons f rest ih =>
    intro mem i e hlen he hnul hfit
    cases i with
    | zero =>
      have hf : f = e := by simpa using he
      subst hf
      rw [serviceLinesAux, List.getElem?_cons_zero]
      congr 1
      rw [bufPrintfFold_cleanLast (servicePieces f) mem 0
        (typePiece f.serviceType) (servicePieces_getLast f)
        (typePiece_ne_nil f.serviceType)
        (by rw [hlen]; omega)]
      simp only [Nat.zero_add]
      exact cString_writeList mem _ hnul (by rw [hlen]; omega)
    | succ j =>
      rw [serviceLinesAux, List.getElem?_cons_succ]
      exact ih _ j e (by rw [bufPrintfFold_length]; exact hlen)
        (by simpa using he) hnul hfit

/-- Claim C7 counterexample: the service name is handed to `bufPrintf` as
the printf FORMAT string (main.c line 195), so the name `"a%%b"` renders as
`"a%b"`: the produced line neither equals the claimed layout nor contains
the name verbatim (character for character) anywhere. -/
theorem claimC7_counterexample :
    (logServer (List.replicate 200 'Z')
        ⟨[171, 205], [], [], [⟨3, 23, ['a', '%', '%', 'b'], none⟩]⟩)[1]?
      = some [' ', ' ', ' ', ' ', '3', ':', ' ', 'a', '%', 'b',
              ' ', '(', '0', 'x', '1', '7', ')'] ∧
    ¬ (['a', '%', '%', 'b']
        <:+: [' ', ' ', ' ', ' ', '3', ':', ' ', 'a', '%', 'b',
              ' ', '(', '0', 'x', '1', '7', ')']) := by
  decide

/-- Claim C7 (amended): after the ID prefix the service line contains the
`serviceName` interpreted as a printf format string with no arguments
(`%%` renders one `%`; any other `%` directive is undefined behaviour,
excluded by the definedness hypothesis); a name free of `%` appears
verbatim, and an empty name renders as the literal `<unnamed>` (whose
interpretation is itself, having no `%`). -/
theorem claimC7_service_format (mem0 : List Char) (s : IDNSL_SERVER_INFO)
    (i : Nat) (e : IDNSL_SERVICE_INFO) (r : List Char)
    (hlen : mem0.length = 200)
    (he : s.serviceTable[i]? = some e)
    (hname : NUL ∉ e.serviceName)
    (hrelay : ∀ re, e.parentRelay = some re → NUL ∉ re.relayName)
    (hfmt : fmtRender (serviceNameArg e.serviceName) = some r)
    (hfit : (servicePieces e).flatten.length + 4 ≤ 200) :
    (logServer mem0 s)[i + 1]?
      = some (serviceIDPiece e.serviceID
          ++ (r ++ ((relayPieces e.parentRelay).flatten
            ++ typePiece e.serviceType))) ∧
    ('%' ∉ e.serviceName → e.serviceName ≠ [] → r = e.serviceName) := by
  constructor
  · rw [logServer, List.getElem?_cons_succ]
    rw [serviceLinesAux_line s.serviceTable _ i e
      (by rw [bufPrintfFold_length]; exact hlen) he
      (servicePieces_no_nul e hname hrelay) hfit]
    congr 1
    simp only [servicePieces, List.flatten_cons, List.flatten_append,
      List.flatten_nil, List.append_nil, serviceNamePiece, hfmt,
      Option.getD_some]
  · intro hp hne
    have h2 : fmtRender e.serviceName = some e.serviceName :=
      fmtRender_no_pct e.serviceName hp
    rw [serviceNameArg, if_neg hne, h2] at hfmt
    exact (Option.some_inj.mp hfmt).symm

/-- Witness for C7 (amended) at a concrete device: one service
`{3, 0x17, "mix"}`, whose `%`-free name renders verbatim. -/
theorem claimC7_format_witness :
    (logServer (List.replicate 200 'Z')
        ⟨[171, 205], [], [], [⟨3, 23, ['m', 'i', 'x'], none⟩]⟩)[1]?
      = some (serviceIDPiece 3
          ++ (['m', 'i', 'x']
            ++ ((relayPieces none).flatten ++ typePiece 23))) :=
  (claimC7_service_format (List.replicate 200 'Z')
    ⟨[171, 205], [], [], [⟨3, 23, ['m', 'i', 'x'], none⟩]⟩ 0
    ⟨3, 23, ['m', 'i', 'x'], none⟩ ['m', 'i', 'x']
    (by decide) rfl (by decide) (fun re h => by cases h) (by decide)
    (by decide)).1

/-- Claim C4 (amended): the service line always right-justifies `serviceID`
in the fixed 3-character field of `"  %3u: "`, independent of the device's
total service count (`s.serviceTable` is arbitrary here). -/
theorem claimC4_service_width (mem0 : List Char) (s : IDNSL_SERVER_INFO)
    (i : Nat) (e : IDNSL_SERVICE_INFO)
    (hlen : mem0.length = 200)
    (he : s.serviceTable[i]? = some e)
    (hname : NUL ∉ e.serviceName)
    (hrelay : ∀ re, e.parentRelay = some re → NUL ∉ re.relayName)
    (hfit : (servicePieces e).flatten.length + 4 ≤ 200) :
    ∃ lineTail,
      (logServer mem0 s)[i + 1]?
        = some (([' ', ' ']
            ++ (List.replicate (3 - (decDigits e.serviceID).length) ' '
              ++ decDigits e.serviceID) ++ [':', ' ']) ++ lineTail) := by
  refine ⟨serviceNamePiece e.serviceName
    ++ ((relayPieces e.parentRelay).flatten ++ typePiece e.serviceType), ?_⟩
  rw [logServer, List.getElem?_cons_succ]
  rw [serviceLinesAux_line s.serviceTable _ i e
    (by rw [bufPrintfFold_length]; exact hlen) he
    (servicePieces_no_nul e hname hrelay) hfit]
  congr 1
  simp only [servicePieces, serviceIDPiece, rjust, List.flatten_cons,
    List.flatten_append, List.flatten_nil, List.append_nil,
    List.append_assoc]

/-- Witness for C4 at the same concrete device as C7. -/
theorem claimC4_witness :
    ∃ lineTail,
      (logServer (List.replicate 200 'Z')
          ⟨[171, 205], [], [], [⟨3, 23, ['m', 'i', 'x'], none⟩]⟩)[1]?
        = some (([' ', ' ']
            ++ (List.replicate (3 - (decDigits 3).length) ' '
              ++ decDigits 3) ++ [':', ' ']) ++ lineTail) :=
  claimC4_service_width (List.replicate 200 'Z')
    ⟨[171, 205], [], [], [⟨3, 23, ['m', 'i', 'x'], none⟩]⟩ 0
    ⟨3, 23, ['m', 'i', 'x'], none⟩
    (by decide) rfl (by decide) (fun re h => by cases h) (by decide)

theorem bufPrintfFold_append (ps qs : List (List Char))
    (st : List Char × Option Nat) :
    bufPrintfFold st (ps ++ qs) = bufPrintfFold (bufPrintfFold st ps) qs := by
  rw [bufPrintfFold, bufPrintfFold, bufPrintfFold, List.foldl_append]

theorem hex2_length (b : Nat) : (hex2 b).length = 2 := rfl

theorem flatten_map_hex2_length (l : List Nat) :
    ((l.map hex2).flatten).length = 2 * l.length := by
  induction l with
  | nil => rfl
  | cons x xs ih =>
    rw [List.map_cons, List.flatten_cons, List.length_append, ih,
      hex2_length, List.length_cons]
    omega

theorem identChars (b : Nat) (rest : List Nat) :
    ∀ c ∈ hex2 b ++ '-' :: (rest.map hex2).flatten, c ≠ NUL := by
  intro c hc
  rcases List.mem_append.mp hc with h1 | h1
  · exact (hex2_chars b c h1).1
  · rcases List.mem_cons.mp h1 with rfl | h2
    · decide
    · rcases List.mem_flatten.mp h2 with ⟨piece, hp, hcp⟩
      rcases List.mem_map.mp hp with ⟨x, _, rfl⟩
      exact (hex2_chars x c hcp).1

theorem identCount (b : Nat) (rest : List Nat) :
    (hex2 b ++ '-' :: (rest.map hex2).flatten).count '-' = 1 := by
  rw [List.count_append, List.count_cons]
  have h1 : (hex2 b).count '-' = 0 :=
    List.count_eq_zero.mpr (fun hm => (hex2_chars b '-' hm).2 rfl)
  have h2 : ((rest.map hex2).flatten).count '-' = 0 := by
    apply List.count_eq_zero.mpr
    intro hm
    rcases List.mem_flatten.mp hm with ⟨piece, hp, hcp⟩
    rcases List.mem_map.mp hp with ⟨x, _, rfl⟩
    exact (hex2_chars x '-' hcp).2 rfl
  rw [h1, h2]
  simp

/-- Claim C3 (amended): the identity prefix of the device line renders every
byte as two uppercase hex digits with a single `-` placed right after the
first byte's digits — also when the unitID has length 1, where the `-`
trails the two digits (the separator call is guarded only by `i == 0`). -/
theorem claimC3_identity (mem0 : List Char) (s : IDNSL_SERVER_INFO)
    (b : Nat) (rest : List Nat)
    (hlen : mem0.length = 200)
    (hID : s.unitID = b :: rest)
    (hfit : 2 * rest.length + 7 ≤ 200) :
    ((logServer mem0 s).headD []).take (2 * rest.length + 3)
        = hex2 b ++ '-' :: (rest.map hex2).flatten ∧
    (((logServer mem0 s).headD []).take (2 * rest.length + 3)).count '-'
        = 1 := by
  have hflatlen : (hex2 b ++ '-' :: (rest.map hex2).flatten).length
      = 2 * rest.length + 3 := by
    rw [List.length_append, hex2_length, List.length_cons,
      flatten_map_hex2_length]
    omega
  have hpieces : devicePieces s
      = (hex2 b :: ['-'] :: rest.map hex2)
        ++ (hostPieces s.hostName ++ addrPieces true s.addressTable) := by
    rw [devicePieces, hID, unitIDPieces, List.append_assoc]
  have hflatpieces : (hex2 b :: ['-'] :: rest.map hex2).flatten
      = hex2 b ++ '-' :: (rest.map hex2).flatten := by
    rw [List.flatten_cons, List.flatten_cons]
    rfl
  have hclean := bufPrintfFold_clean (hex2 b :: ['-'] :: rest.map hex2)
    mem0 0 (by simp)
    (by
      intro p hp
      rcases List.mem_cons.mp hp with rfl | hp2
      · simp [hex2]
      rcases List.mem_cons.mp hp2 with rfl | hp3
      · simp
      · rcases List.mem_map.mp hp3 with ⟨x, _, rfl⟩
        simp [hex2])
    (by rw [hflatpieces, hflatlen, hlen]; omega)
  rw [hflatpieces] at hclean
  have hM : ∀ k, k < 2 * rest.length + 3 →
      (bufPrintfFold (mem0, some 0) (devicePieces s)).1[k]?
        = (hex2 b ++ '-' :: (rest.map hex2).flatten)[k]? := by
    intro k hk
    rw [hpieces, bufPrintfFold_append, hclean]
    have hlow := bufPrintfFold_lower
      (hostPieces s.hostName ++ addrPieces true s.addressTable)
      ((writeList mem0 0 (hex2 b ++ '-' :: (rest.map hex2).flatten)).set
        (0 + (hex2 b ++ '-' :: (rest.map hex2).flatten).length) NUL)
      (0 + (hex2 b ++ '-' :: (rest.map hex2).flatten).length)
      k (by omega)
    rw [hlow, List.getElem?_set_ne (by omega), writeList_getElem?,
      if_pos ⟨Nat.zero_le k, by omega, by omega⟩, Nat.sub_zero]
  have hMnn : ∀ k, k < 2 * rest.length + 3 →
      ∃ c, (bufPrintfFold (mem0, some 0) (devicePieces s)).1[k]? = some c
        ∧ c ≠ NUL := by
    intro k hk
    have hk2 : k < (hex2 b ++ '-' :: (rest.map hex2).flatten).length := by
      omega
    refine ⟨(hex2 b ++ '-' :: (rest.map hex2).flatten)[k], ?_, ?_⟩
    · rw [hM k hk, List.getElem?_eq_getElem hk2]
    · exact identChars b rest _ (List.getElem_mem hk2)
  have hL : (logServer mem0 s).headD []
      = cString ((bufPrintfFold (mem0, some 0) (devicePieces s)).1) := rfl
  have htake : ((logServer mem0 s).headD []).take (2 * rest.length + 3)
      = hex2 b ++ '-' :: (rest.map hex2).flatten := by
    rw [hL, cString, takeWhile_take _ _ hMnn]
    apply List.ext_getElem?
    intro k
    rw [List.getElem?_take]
    by_cases hk : k < 2 * rest.length + 3
    · rw [if_pos hk]
      exact hM k hk
    · rw [if_neg hk]
      exact (List.getElem?_eq_none (by omega)).symm
  exact ⟨htake, by rw [htake]; exact identCount b rest⟩

/-- Claim C3 counterexample: a unitID of length 1 (byte `0xAB`) renders as
`"AB-"` with a trailing separator, not as the bare 2 hex characters the
claim requires. -/
theorem claimC3_counterexample :
    (logServer (List.replicate 200 'Z')
        ⟨[171], [], [], []⟩).headD [] = ['A', 'B', '-'] ∧
    (logServer (List.replicate 200 'Z')
        ⟨[171], [], [], []⟩).headD [] ≠ ['A', 'B'] := by
  decide

/-- Witness for C3 (amended) at unitID `[0xAB, 0xCD]`. -/
theorem claimC3_witness :
    ((logServer (List.replicate 200 'Z')
        ⟨[171, 205], [], [], []⟩).headD []).take 5
      = hex2 171 ++ '-' :: ([205].map hex2).flatten ∧
    (((logServer (List.replicate 200 'Z')
        ⟨[171, 205], [], [], []⟩).headD []).take 5).count '-' = 1 :=
  claimC3_identity (List.replicate 200 'Z') ⟨[171, 205], [], [], []⟩
    171 [205] (by decide) rfl (by decide)

/-- Claim C4 counterexample: a device with 9 services (count below 10) still
prints `serviceID` in the fixed 3-character field of `"  %3u: "`, so the
first service line is `"    3: mix (0x17)"`, not the `"  3: mix (0x17)"`
the width-from-count rule of the claim requires. -/
theorem claimC4_counterexample :
    (logServer (List.replicate 200 'Z')
        ⟨[171, 205], [], [],
          List.replicate 9 ⟨3, 23, ['m', 'i', 'x'], none⟩⟩)[1]?
      = some [' ', ' ', ' ', ' ', '3', ':', ' ', 'm', 'i', 'x',
              ' ', '(', '0', 'x', '1', '7', ')'] ∧
    (logServer (List.replicate 200 'Z')
        ⟨[171, 205], [], [],
          List.replicate 9 ⟨3, 23, ['m', 'i', 'x'], none⟩⟩)[1]?
      ≠ some [' ', ' ', '3', ':', ' ', 'm', 'i', 'x',
              ' ', '(', '0', 'x', '1', '7', ')'] := by
  decide

/-- The `isspace` set of the C locale, as consumed by `atoi`. -/
def isSpaceChar (c : Char) : Bool :=
  c == ' ' || c == '\t' || c == '\n' || c == Char.ofNat 11
    || c == Char.ofNat 12 || c == '\r'

/-- Digit-accumulation loop of C `atoi`. -/
def atoiLoop : List Char → Nat → Nat
  | [], acc => acc
  | c :: cs, acc =>
    if c.isDigit then atoiLoop cs (acc * 10 + (c.toNat - 48)) else acc

/-- C `atoi` (used at main.c line 234): skip whitespace, optional sign, then
the leading digits (0 when there are none — conversion cannot fail).
Overflow is not modelled; the values compared in `main` are tiny. -/
def atoi (s : List Char) : Int :=
  match s.dropWhile isSpaceChar with
  | '-' :: rest => - (atoiLoop rest 0 : Int)
  | '+' :: rest => (atoiLoop rest 0 : Int)
  | t => (atoiLoop t 0 : Int)

/-- `plt_sockStartup` (plt-posix.h, lines 79-82): constant 0 on POSIX. -/
def plt_sockStartup : Int := 0

/-- `plt_sockCleanup` (plt-posix.h, lines 85-88): constant 0 on POSIX. -/
def plt_sockCleanup : Int := 0

/-- The argument loop of `main` (main.c, lines 229-243), carrying the
current `clientGroup`; `none` models `usageFlag = 1`. -/
def parseLoop : Nat → List String → Option Nat
  | cg, [] => some cg
  | cg, a :: rest =>
    if a = "-cg" then
      match rest with
      | [] => none
      | v :: rest2 =>
        if atoi v.toList < 0 ∨ 16 ≤ atoi v.toList then none
        else parseLoop (atoi v.toList).toNat rest2
    else none

/-- Argument parsing of `main` over the full `argv` (the loop starts at
index 1, skipping the program name). -/
def parseArgs (argv : List String) : Option Nat := parseLoop 0 (argv.drop 1)

/-- The observable outcome of one `main` run. -/
structure MainOutcome where
  exitCode : Int
  usagePrinted : Bool
  startupErrorLogged : Bool
  discoveryAttempts : Nat
  cleanupErrorLogged : Bool

/-- Shallow embedding of `main` (main.c, lines 224-295): argument parsing,
the usage path (which returns 0 before any socket work), socket startup,
the single `getIDNServerList` attempt, and cleanup.  The discovery provider
itself is external; only whether its call is reached is modelled. -/
def runMain (argv : List String) : MainOutcome :=
  match parseArgs argv with
  | none =>
    { exitCode := 0, usagePrinted := true, startupErrorLogged := false,
      discoveryAttempts := 0, cleanupErrorLogged := false }
  | some _ =>
    if plt_sockStartup != 0 then
      { exitCode := 0, usagePrinted := false, startupErrorLogged := true,
        discoveryAttempts := 0,
        cleanupErrorLogged := plt_sockCleanup != 0 }
    else
      { exitCode := 0, usagePrinted := false, startupErrorLogged := false,
        discoveryAttempts := 1,
        cleanupErrorLogged := plt_sockCleanup != 0 }

/-- Claim C8 counterexample: `-cg abc` is an invalid value, yet `atoi`
converts it to 0, which is in range — `main` accepts it and proceeds to
discovery instead of printing usage. -/
theorem claimC8_counterexample :
    (runMain ["serverList", "-cg", "abc"]).usagePrinted = false ∧
    (runMain ["serverList", "-cg", "abc"]).discoveryAttempts = 1 := by
  decide

/-- Claim C8 (amended): any unrecognized flag, a trailing `-cg`, or a `-cg`
value whose `atoi` conversion is outside `[0, 15]` prints usage and exits 0
without discovery; a `-cg` value whose `atoi` conversion is in `[0, 15]`
(including non-numeric text, which converts to 0) is accepted and discovery
proceeds; the exit status is 0 on every path. -/
theorem claimC8_usage_behaviour :
    (∀ argv : List String, (runMain argv).exitCode = 0) ∧
    (∀ argv : List String,
      (runMain argv).usagePrinted = true ↔ parseArgs argv = none) ∧
    (∀ argv : List String,
      (runMain argv).discoveryAttempts
        = if parseArgs argv = none then 0 else 1) ∧
    (∀ (cg : Nat) (a : String) (rest : List String), a ≠ "-cg" →
      parseLoop cg (a :: rest) = none) ∧
    (∀ cg : Nat, parseLoop cg ["-cg"] = none) ∧
    (∀ (cg : Nat) (v : String) (rest : List String),
      (atoi v.toList < 0 ∨ 16 ≤ atoi v.toList) →
      parseLoop cg ("-cg" :: v :: rest) = none) ∧
    (∀ (cg : Nat) (v : String) (rest : List String),
      0 ≤ atoi v.toList → atoi v.toList < 16 →
      parseLoop cg ("-cg" :: v :: rest)
        = parseLoop (atoi v.toList).toNat rest) := by
  refine ⟨?_, ?_, ?_, ?_, ?_, ?_, ?_⟩
  · intro argv
    cases h : parseArgs argv <;>
      simp [runMain, h, plt_sockStartup, plt_sockCleanup]
  · intro argv
    cases h : parseArgs argv <;>
      simp [runMain, h, plt_sockStartup, plt_sockCleanup]
  · intro argv
    cases h : parseArgs argv <;>
      simp [runMain, h, plt_sockStartup, plt_sockCleanup]
  · intro cg a rest ha
    cases rest with
    | nil => rw [parseLoop, if_neg ha]
    | cons v rest2 => rw [parseLoop, if_neg ha]
  · intro cg
    rw [parseLoop, if_pos rfl]
  · intro cg v rest h
    rw [parseLoop, if_pos rfl, if_pos h]
  · intro cg v rest h1 h2
    rw [parseLoop, if_pos rfl, if_neg (by omega)]

/-- Witness for C8 (amended) at concrete argument vectors. -/
theorem claimC8_witness :
    parseLoop 0 ["-x"] = none ∧
    parseLoop 0 ["-cg", "19"] = none ∧
    parseLoop 0 ["-cg", "7"] = parseLoop 7 [] :=
  ⟨claimC8_usage_behaviour.2.2.2.1 0 "-x" [] (by decide),
   claimC8_usage_behaviour.2.2.2.2.2.1 0 "19" [] (by decide),
   claimC8_usage_behaviour.2.2.2.2.2.2 0 "7" [] (by decide) (by decide)⟩

/-- `AF_INET` (POSIX). -/
def AF_INET : Nat := 2

/-- A socket address attached to an interface entry: the address family
and, for `AF_INET`, the 32-bit `sin_addr.s_addr` in network byte order. -/
structure IfSockAddr where
  family : Nat
  addr : Nat

/-- One entry of the `getifaddrs` list (`ifa_name`, optional `ifa_addr`). -/
structure IfaddrsEntry where
  ifName : List Char
  ifAddr : Option IfSockAddr

/-- Shallow embedding of `plt_ifAddrListVisitor` (plt-posix.h, lines
55-76).  The OS result of `getifaddrs` is the input: `Except.error e`
models a `-1` return with `errno = e`; `Except.ok l` the retrieved list.
The callback threads its state (in C it mutates through the opaque
`callbackArg` pointer and cannot influence control flow).  Returns the C
return value together with the final callback state. -/
def plt_ifAddrListVisitor {α : Type} (pfnCallback : α → List Char → Nat → α)
    (callbackArg : α) (osList : Except Int (List IfaddrsEntry)) :
    Int × α :=
  match osList with
  | .error e => (e, callbackArg)
  | .ok l =>
    (0, l.foldl (fun acc ifa =>
        match ifa.ifAddr with
        | none => acc
        | some sa =>
          if sa.family = AF_INET then pfnCallback acc ifa.ifName sa.addr
          else acc) callbackArg)

/-- The interface entries that carry an IPv4 address, in list order. -/
def ipv4Entries (l : List IfaddrsEntry) : List (List Char × Nat) :=
  l.filterMap (fun ifa =>
    match ifa.ifAddr with
    | none => none
    | some sa =>
      if sa.family = AF_INET then some (ifa.ifName, sa.addr) else none)

/-- Claim C9: the visitor returns the platform error code (and never calls
the callback) when the list cannot be retrieved; on success it returns 0 and
invokes the callback exactly once, in list order, for each entry with an
IPv4 address, passing context, name and address; entries with no address or
another family are skipped, and the callback cannot abort enumeration. -/
theorem claimC9_visitor {α : Type} (pfnCallback : α → List Char → Nat → α)
    (callbackArg : α) :
    (∀ e, plt_ifAddrListVisitor pfnCallback callbackArg (.error e)
        = (e, callbackArg)) ∧
    (∀ l, plt_ifAddrListVisitor pfnCallback callbackArg (.ok l)
        = (0, (ipv4Entries l).foldl
            (fun acc en => pfnCallback acc en.1 en.2) callbackArg)) := by
  refine ⟨fun e => rfl, fun l => ?_⟩
  rw [plt_ifAddrListVisitor]
  congr 1
  induction l generalizing callbackArg with
  | nil => rfl
  | cons ifa rest ih =>
    rw [ipv4Entries, List.filterMap_cons]
    cases hia : ifa.ifAddr with
    | none =>
      simp only [List.foldl_cons, hia]
      exact ih callbackArg
    | some sa =>
      by_cases hf : sa.family = AF_INET
      · simp only [List.foldl_cons, hia, if_pos hf]
        exact ih (pfnCallback callbackArg ifa.ifName sa.addr)
      · simp only [List.foldl_cons, hia, if_neg hf]
        exact ih callbackArg

/-- Claim C10: on the POSIX platform both socket startup and cleanup are
constant 0, so the startup-failure branch and the cleanup-failure log of
`main` are unreachable, and once arguments parse, discovery is attempted
exactly once. -/
theorem claimC10_unreachable :
    plt_sockStartup = 0 ∧ plt_sockCleanup = 0 ∧
    ∀ argv : List String, parseArgs argv ≠ none →
      (runMain argv).startupErrorLogged = false ∧
      (runMain argv).cleanupErrorLogged = false ∧
      (runMain argv).discoveryAttempts = 1 := by
  refine ⟨rfl, rfl, ?_⟩
  intro argv h
  cases hp : parseArgs argv with
  | none => exact absurd hp h
  | some cg => simp [runMain, hp, plt_sockStartup, plt_sockCleanup]

/-- Witness for C10: a run with no flags parses and attempts discovery. -/
theorem claimC10_witness :
    (runMain ["serverList"]).startupErrorLogged = false ∧
    (runMain ["serverList"]).cleanupErrorLogged = false ∧
    (runMain ["serverList"]).discoveryAttempts = 1 :=
  claimC10_unreachable.2.2 ["serverList"] (by decide)
